import Mathlib

/-!
Shallow embedding of the cricket fielding analysis pipeline:
`task-3/analysis.py` (compute_action_counts, compute_ps, Weights) and
`task-3/fielding_analysis.py` (compute_matrix, Weights).

Text cells are sequences of characters (`List Char`); a missing (NaN)
cell of the dataframe is `none`.  Real-valued weights and scores are
rationals, the exact fragment of arithmetic these programs use.
-/

/-- A text value, as a sequence of characters. -/
abbrev Str := List Char

/-- One row of the input dataframe.  The pipeline reads the columns
'Player Name', 'Pick', 'Throw', 'Short Description' and 'Runs'; the
remaining required columns are never consulted by the computation.
`none` models a missing (NaN) cell. -/
structure FieldingEvent where
  playerName : Str
  pick : Option Str
  throw : Option Str
  shortDescription : Option Str
  runs : Option Int
  deriving DecidableEq

/-- Python `str.strip`: remove whitespace at both ends. -/
def strip (s : Str) : Str :=
  ((s.dropWhile Char.isWhitespace).reverse.dropWhile Char.isWhitespace).reverse

/-- Python `str.lower` (ASCII letters, as in the data). -/
def lower (s : Str) : Str := s.map Char.toLower

/-- pandas `col.fillna("").str.strip().str.lower()`, the normalization
applied to the 'Pick' and 'Throw' columns (and, in
`fielding_analysis.py`, also to 'Short Description'). -/
def normCell (c : Option Str) : Str := lower (strip (c.getD []))

/-- pandas `Series.str.contains(pat)` for a literal pattern:
substring containment. -/
def containsSub (s pat : Str) : Bool := decide (pat <:+: s)

/-- The recognized pick outcome "clean pick". -/
def cleanPick : Str := "clean pick".toList

/-- The recognized pick outcome "good throw". -/
def goodThrow : Str := "good throw".toList

/-- The recognized pick outcome "catch". -/
def catchOutcome : Str := "catch".toList

/-- The recognized pick outcome "drop catch". -/
def dropCatch : Str := "drop catch".toList

/-- The recognized throw outcome "stumping". -/
def stumping : Str := "stumping".toList

/-- The recognized throw outcome "run out". -/
def runOut : Str := "run out".toList

/-- The recognized throw outcome "missed run out". -/
def missedRunOut : Str := "missed run out".toList

/-- The direct-hit marker searched for in 'Short Description'. -/
def directHit : Str := "direct hit".toList

/-- The per-player row of the counts dataframe produced by
`compute_action_counts`: columns CP, GT, C, DC, ST, RO, MRO, DH, RS. -/
structure Counts where
  CP : Nat
  GT : Nat
  C : Nat
  DC : Nat
  ST : Nat
  RO : Nat
  MRO : Nat
  DH : Nat
  RS : Int
  deriving DecidableEq

/-- The weight record shared by both modules (fields WCP..WDH). -/
structure Weights where
  WCP : ℚ
  WGT : ℚ
  WC : ℚ
  WDC : ℚ
  WST : ℚ
  WRO : ℚ
  WMRO : ℚ
  WDH : ℚ
  deriving DecidableEq

/-- The default weight profile of `analysis.Weights`. -/
def analysisDefaultWeights : Weights := ⟨0.5, 1.0, 3.0, -2.0, 2.5, 2.5, -1.0, 1.5⟩

/-- The default weight profile of `fielding_analysis.Weights`. -/
def fieldingDefaultWeights : Weights := ⟨1.0, 1.0, 3.0, -3.0, 3.0, 3.0, -2.0, 2.0⟩

/-- `(working[col] cond).groupby(working["Player Name"]).sum()` evaluated at
player `p`: the number of rows of player `p` satisfying `cond`. -/
def matchCount (es : List FieldingEvent) (p : Str) (cond : FieldingEvent → Bool) : Nat :=
  (es.filter (fun e => e.playerName == p && cond e)).length

/-- `working.groupby("Player Name")["Runs"].sum()` evaluated at player `p`;
pandas `sum` skips missing values, so a missing run cell contributes 0. -/
def runsSum (es : List FieldingEvent) (p : Str) : Int :=
  ((es.filter (fun e => e.playerName == p)).map (fun e => e.runs.getD 0)).sum

/-- The direct-hit test of `analysis.py` line 49: the description is
filled, lowered (not stripped) and searched for "direct hit". -/
def dhCond (e : FieldingEvent) : Bool :=
  containsSub (lower (e.shortDescription.getD [])) directHit

/-- The direct-hit test of `fielding_analysis.py` line 83: there the
'Short Description' column was normalized (filled, stripped, lowered)
at line 70 before the containment test. -/
def dhCondFA (e : FieldingEvent) : Bool :=
  containsSub (normCell e.shortDescription) directHit

/-- The row of player `p` in the output of
`analysis.compute_action_counts` (lines 42-52 of `analysis.py`). -/
def countsFor (es : List FieldingEvent) (p : Str) : Counts where
  CP := matchCount es p (fun e => normCell e.pick == cleanPick)
  GT := matchCount es p (fun e => normCell e.pick == goodThrow)
  C := matchCount es p (fun e => normCell e.pick == catchOutcome)
  DC := matchCount es p (fun e => normCell e.pick == dropCatch)
  ST := matchCount es p (fun e => normCell e.throw == stumping)
  RO := matchCount es p (fun e => normCell e.throw == runOut)
  MRO := matchCount es p (fun e => normCell e.throw == missedRunOut)
  DH := matchCount es p dhCond
  RS := runsSum es p

/-- The row of player `p` in the output of
`fielding_analysis.compute_matrix` (lines 76-84): identical to
`countsFor` except that the direct-hit test runs on the normalized
description column. -/
def countsForFA (es : List FieldingEvent) (p : Str) : Counts where
  CP := matchCount es p (fun e => normCell e.pick == cleanPick)
  GT := matchCount es p (fun e => normCell e.pick == goodThrow)
  C := matchCount es p (fun e => normCell e.pick == catchOutcome)
  DC := matchCount es p (fun e => normCell e.pick == dropCatch)
  ST := matchCount es p (fun e => normCell e.throw == stumping)
  RO := matchCount es p (fun e => normCell e.throw == runOut)
  MRO := matchCount es p (fun e => normCell e.throw == missedRunOut)
  DH := matchCount es p dhCondFA
  RS := runsSum es p

/-- The distinct group keys of `groupby("Player Name")`: one key per
distinct raw player name appearing in the input. -/
def players (es : List FieldingEvent) : List Str :=
  (es.map (fun e => e.playerName)).dedup

/-- `analysis.compute_action_counts`: the per-player counts table, one
row per distinct raw player name. -/
def compute_action_counts (es : List FieldingEvent) : List (Str × Counts) :=
  (players es).map (fun p => (p, countsFor es p))

/-- A row of the scored table: the counts columns plus the added PS. -/
structure ScoredRow where
  counts : Counts
  PS : ℚ
  deriving DecidableEq

/-- The PS formula of `analysis.compute_ps` lines 82-92 (identical in
`fielding_analysis.compute_matrix` lines 86-96). -/
def psFormula (w : Weights) (c : Counts) : ℚ :=
  c.CP * w.WCP + c.GT * w.WGT + c.C * w.WC + c.DC * w.WDC
    + c.ST * w.WST + c.RO * w.WRO + c.MRO * w.WMRO + c.DH * w.WDH + c.RS

/-- `analysis.compute_ps`: copies the counts table and adds the PS
column; the input table is not modified. -/
def compute_ps (m : List (Str × Counts)) (w : Weights) : List (Str × ScoredRow) :=
  m.map (fun pc => (pc.1, ⟨pc.2, psFormula w pc.2⟩))

/-- `fielding_analysis.compute_matrix`: aggregates and scores in one
pass, using its own direct-hit column. -/
def compute_matrix (es : List FieldingEvent) (w : Weights) : List (Str × ScoredRow) :=
  (players es).map (fun p => (p, ⟨countsForFA es p, psFormula w (countsForFA es p)⟩))

/-- First event of the spec's end-to-end example for player "A". -/
def exampleEventA1 : FieldingEvent :=
  ⟨"A".toList, some "clean pick".toList, none, none, some 1⟩

/-- Second event of the spec's end-to-end example for player "A". -/
def exampleEventA2 : FieldingEvent :=
  ⟨"A".toList, some "good throw".toList, some "missed run out".toList, none, some (-1)⟩

/-- Third event of the spec's end-to-end example for player "A". -/
def exampleEventA3 : FieldingEvent :=
  ⟨"A".toList, some "clean pick".toList, some "stumping".toList, none, some 0⟩

/-- The three events of the spec's end-to-end example. -/
def exampleEvents : List FieldingEvent := [exampleEventA1, exampleEventA2, exampleEventA3]

/-- The weights of the spec's end-to-end example:
WCP=1.0, WGT=1.0, WST=3.0, WMRO=-2.0, all others 0. -/
def exampleWeights : Weights := ⟨1.0, 1.0, 0, 0, 3.0, 0, -2.0, 0⟩

/-- The aggregate the example should produce:
CP=2, GT=1, ST=1, MRO=1, RS=0, all others 0. -/
def exampleCounts : Counts := ⟨2, 1, 0, 0, 1, 0, 1, 0, 0⟩

/-- An event whose pick outcome carries extra whitespace and case. -/
def wsVariantEvent : FieldingEvent :=
  ⟨"A".toList, some " Clean Pick ".toList, none, none, some 1⟩

/-- The same event with the already-normalized pick outcome. -/
def plainVariantEvent : FieldingEvent :=
  ⟨"A".toList, some "clean pick".toList, none, none, some 1⟩

/-- An event with an unrecognized pick outcome and negative runs. -/
def oddPickEvent : FieldingEvent :=
  ⟨"B".toList, some "fumble".toList, none, none, some (-2)⟩

/-- A drop catch whose description mentions a direct hit. -/
def dhEvent : FieldingEvent :=
  ⟨"A".toList, some "Drop Catch".toList, none, some "runner beaten by a Direct Hit".toList,
    some 0⟩

/-- An event for player "A" (no surrounding whitespace). -/
def plainEvent : FieldingEvent :=
  ⟨"A".toList, some "clean pick".toList, none, none, some 1⟩

/-- An event whose player name is "A" wrapped in whitespace. -/
def spacedEvent : FieldingEvent :=
  ⟨" A ".toList, some "clean pick".toList, none, none, some 2⟩

example : countsFor exampleEvents "A".toList = exampleCounts := by decide

example : compute_ps (compute_action_counts exampleEvents) exampleWeights
    = [("A".toList, ⟨exampleCounts, 4⟩)] := by
  have h1 : compute_action_counts exampleEvents = [("A".toList, exampleCounts)] := by decide
  have h2 : psFormula exampleWeights exampleCounts = 4 := by
    norm_num [psFormula, exampleWeights, exampleCounts]
  rw [h1]
  simp [compute_ps, h2]

example : dhCond dhEvent = true := by decide
example : dhCondFA dhEvent = true := by decide

/-! ### Helper lemmas -/

theorem matchCount_cons (e : FieldingEvent) (es : List FieldingEvent) (p : Str)
    (cond : FieldingEvent → Bool) :
    matchCount (e :: es) p cond
      = (if e.playerName == p && cond e then 1 else 0) + matchCount es p cond := by
  unfold matchCount
  rw [List.filter_cons]
  by_cases h : (e.playerName == p && cond e) = true
  · rw [if_pos h, if_pos h, List.length_cons]
    omega
  · rw [if_neg h, if_neg h]
    omega

theorem runsSum_cons (e : FieldingEvent) (es : List FieldingEvent) (p : Str) :
    runsSum (e :: es) p
      = (if e.playerName == p then e.runs.getD 0 else 0) + runsSum es p := by
  unfold runsSum
  rw [List.filter_cons]
  by_cases h : (e.playerName == p) = true
  · rw [if_pos h, if_pos h, List.map_cons, List.sum_cons]
  · rw [if_neg h, if_neg h]
    omega

theorem runsSum_eq_ite_sum (es : List FieldingEvent) (p : Str) :
    runsSum es p = (es.map (fun e => if e.playerName = p then e.runs.getD 0 else 0)).sum := by
  induction es with
  | nil => rfl
  | cons e es ih =>
    rw [runsSum_cons, List.map_cons, List.sum_cons, ih]
    by_cases h : e.playerName = p
    · rw [if_pos h, if_pos (by exact beq_iff_eq.mpr h)]
    · rw [if_neg h, if_neg (by simp [h])]

theorem normCell_nil_of_getD_nil (o : Option Str) (h : o.getD [] = []) : normCell o = [] := by
  unfold normCell strip lower
  rw [h]
  rfl

theorem toLower_of_isWhitespace {c : Char} (h : c.isWhitespace = true) :
    Char.toLower c = c := by
  simp only [Char.isWhitespace, Bool.or_eq_true, decide_eq_true_eq] at h
  rcases h with ((h | h) | h) | h <;> subst h <;> decide

theorem not_isWhitespace_of_toLower {c d : Char} (hd : d.isWhitespace = false)
    (h : Char.toLower c = d) : c.isWhitespace = false := by
  by_cases hw : c.isWhitespace = true
  · rw [toLower_of_isWhitespace hw] at h
    subst h
    rw [hw] at hd
    exact absurd hd (by decide)
  · simpa using hw

theorem pat_in_lower_dropWhile {d : Char} (pat : Str)
    (hd : ∀ c, Char.toLower c = d → c.isWhitespace = false) (s : Str) :
    ((d :: pat) <:+: lower (s.dropWhile Char.isWhitespace) ↔ (d :: pat) <:+: lower s) := by
  induction s with
  | nil => exact Iff.rfl
  | cons c s ih =>
    by_cases hw : c.isWhitespace = true
    · rw [List.dropWhile_cons_of_pos hw, ih]
      constructor
      · intro h
        exact h.trans (List.suffix_cons (Char.toLower c) (lower s)).isInfix
      · intro h
        rw [show lower (c :: s) = Char.toLower c :: lower s from rfl,
          List.infix_cons_iff] at h
        rcases h with hpre | hinf
        · rcases List.cons_prefix_cons.mp hpre with ⟨hdc, h2⟩
          rw [hd c hdc.symm] at hw
          exact absurd hw (by decide)
        · exact hinf
    · rw [List.dropWhile_cons_of_neg hw]

theorem pat_in_reverse (l₁ l₂ : Str) : l₁ <:+: l₂.reverse ↔ l₁.reverse <:+: l₂ := by
  constructor
  · intro h
    have h2 := List.reverse_infix.mpr h
    rwa [List.reverse_reverse] at h2
  · intro h
    have h2 := List.reverse_infix.mpr h
    rwa [List.reverse_reverse] at h2

theorem lower_reverse (l : Str) : lower l.reverse = (lower l).reverse :=
  List.map_reverse Char.toLower l

theorem dh_in_strip (s : Str) :
    (directHit <:+: lower (strip s)) ↔ (directHit <:+: lower s) := by
  have hd : ∀ c, Char.toLower c = 'd' → c.isWhitespace = false :=
    fun c h => not_isWhitespace_of_toLower (by decide) h
  have ht : ∀ c, Char.toLower c = 't' → c.isWhitespace = false :=
    fun c h => not_isWhitespace_of_toLower (by decide) h
  have hdrop : ∀ u : Str, (directHit <:+: lower (u.dropWhile Char.isWhitespace)
      ↔ directHit <:+: lower u) := by
    intro u
    rw [show directHit = 'd' :: "irect hit".toList from by decide]
    exact pat_in_lower_dropWhile _ hd u
  have hdropr : ∀ u : Str, (directHit.reverse <:+: lower (u.dropWhile Char.isWhitespace)
      ↔ directHit.reverse <:+: lower u) := by
    intro u
    rw [show directHit.reverse = 't' :: "ih tcerid".toList from by decide]
    exact pat_in_lower_dropWhile _ ht u
  unfold strip
  calc directHit <:+:
        lower (((s.dropWhile Char.isWhitespace).reverse.dropWhile Char.isWhitespace).reverse)
      ↔ directHit.reverse <:+:
          lower ((s.dropWhile Char.isWhitespace).reverse.dropWhile Char.isWhitespace) := by
        rw [lower_reverse]
        exact pat_in_reverse _ _
    _ ↔ directHit.reverse <:+: lower (s.dropWhile Char.isWhitespace).reverse := hdropr _
    _ ↔ directHit <:+: lower (s.dropWhile Char.isWhitespace) := by
        rw [lower_reverse]
        exact List.reverse_infix
    _ ↔ directHit <:+: lower s := hdrop s

theorem dhCondFA_eq (e : FieldingEvent) : dhCondFA e = dhCond e := by
  unfold dhCondFA dhCond containsSub normCell
  rw [decide_eq_decide]
  exact dh_in_strip _

theorem countsForFA_eq (es : List FieldingEvent) (p : Str) :
    countsForFA es p = countsFor es p := by
  have h : dhCondFA = dhCond := funext dhCondFA_eq
  unfold countsForFA countsFor
  rw [h]

/-! ### Claim theorems -/

/-- C1: for every aggregate row and every weight configuration, the
Scorer's PS equals CP·WCP + GT·WGT + C·WC + DC·WDC + ST·WST + RO·WRO +
MRO·WMRO + DH·WDH + RS; and on the spec's three-event example for
player "A" with weights WCP=1, WGT=1, WST=3, WMRO=-2 (others 0) the
whole pipeline produces the aggregate CP=2, GT=1, ST=1, MRO=1, RS=0
and PS exactly 4. -/
theorem c1_ps_linear_formula :
    (∀ (m : List (Str × Counts)) (w : Weights) (p : Str) (r : ScoredRow),
        (p, r) ∈ compute_ps m w →
        r.PS = r.counts.CP * w.WCP + r.counts.GT * w.WGT + r.counts.C * w.WC
          + r.counts.DC * w.WDC + r.counts.ST * w.WST + r.counts.RO * w.WRO
          + r.counts.MRO * w.WMRO + r.counts.DH * w.WDH + r.counts.RS)
    ∧ compute_ps (compute_action_counts exampleEvents) exampleWeights
        = [("A".toList, ⟨exampleCounts, 4⟩)] := by
  constructor
  · intro m w p r hmem
    unfold compute_ps at hmem
    rcases List.mem_map.mp hmem with ⟨⟨q, c⟩, hqc, heq⟩
    injection heq with h1 h2
    subst h1
    subst h2
    rfl
  · have h1 : compute_action_counts exampleEvents = [("A".toList, exampleCounts)] := by
      decide
    have h2 : psFormula exampleWeights exampleCounts = 4 := by
      norm_num [psFormula, exampleWeights, exampleCounts]
    rw [h1]
    simp [compute_ps, h2]

/-- Witness for C1: the scored row of player "A" in the example run
satisfies the formula, with the membership hypothesis discharged on the
concrete pipeline output. -/
theorem c1_ps_linear_formula_witness :
    (("A".toList, (⟨exampleCounts, 4⟩ : ScoredRow))
        ∈ compute_ps (compute_action_counts exampleEvents) exampleWeights)
    ∧ (⟨exampleCounts, 4⟩ : ScoredRow).PS
        = (⟨exampleCounts, 4⟩ : ScoredRow).counts.CP * exampleWeights.WCP
          + (⟨exampleCounts, 4⟩ : ScoredRow).counts.GT * exampleWeights.WGT
          + (⟨exampleCounts, 4⟩ : ScoredRow).counts.C * exampleWeights.WC
          + (⟨exampleCounts, 4⟩ : ScoredRow).counts.DC * exampleWeights.WDC
          + (⟨exampleCounts, 4⟩ : ScoredRow).counts.ST * exampleWeights.WST
          + (⟨exampleCounts, 4⟩ : ScoredRow).counts.RO * exampleWeights.WRO
          + (⟨exampleCounts, 4⟩ : ScoredRow).counts.MRO * exampleWeights.WMRO
          + (⟨exampleCounts, 4⟩ : ScoredRow).counts.DH * exampleWeights.WDH
          + (⟨exampleCounts, 4⟩ : ScoredRow).counts.RS := by
  have hmem : ("A".toList, (⟨exampleCounts, 4⟩ : ScoredRow))
      ∈ compute_ps (compute_action_counts exampleEvents) exampleWeights := by
    rw [c1_ps_linear_formula.2]
    exact List.mem_singleton.mpr rfl
  exact ⟨hmem, c1_ps_linear_formula.1 _ _ _ _ hmem⟩

/-- C2: the RS column of a player's aggregate row is the exact sum of
that player's runs values, negatives included, with a missing runs
cell contributing 0. -/
theorem c2_rs_additivity (es : List FieldingEvent) (p : Str) (c : Counts)
    (h : (p, c) ∈ compute_action_counts es) :
    c.RS = (es.map (fun e => if e.playerName = p then e.runs.getD 0 else 0)).sum := by
  unfold compute_action_counts at h
  rcases List.mem_map.mp h with ⟨q, hq, heq⟩
  injection heq with h1 h2
  subst h1
  subst h2
  exact runsSum_eq_ite_sum es q

/-- Witness for C2: player "A" of the example input, whose events carry
runs 1, -1 and 0. -/
theorem c2_rs_additivity_witness :
    (("A".toList, exampleCounts) ∈ compute_action_counts exampleEvents)
    ∧ exampleCounts.RS
        = (exampleEvents.map
            (fun e => if e.playerName = "A".toList then e.runs.getD 0 else 0)).sum := by
  have hmem : ("A".toList, exampleCounts) ∈ compute_action_counts exampleEvents := by
    decide
  exact ⟨hmem, c2_rs_additivity _ _ _ hmem⟩

/-- C9: the Aggregator maps the empty event sequence to the empty
table, and the Scorer maps the empty table to the empty table for
every weight configuration. -/
theorem c9_empty_inputs :
    compute_action_counts [] = [] ∧ ∀ w : Weights, compute_ps [] w = [] :=
  ⟨rfl, fun _ => rfl⟩

/-- C10: the two aggregator implementations agree on every counter
column for every input: projecting the PS column away from
`compute_matrix` yields exactly `compute_action_counts`, whatever
weights the matrix was scored with. -/
theorem c10_matrix_counts_equiv (es : List FieldingEvent) (w : Weights) :
    (compute_matrix es w).map (fun pr => (pr.1, pr.2.counts)) = compute_action_counts es := by
  unfold compute_matrix compute_action_counts
  rw [List.map_map]
  apply List.map_congr_left
  intro p hp
  show (p, countsForFA es p) = (p, countsFor es p)
  rw [countsForFA_eq]

theorem countsFor_cons_congr (es : List FieldingEvent) (e₁ e₂ : FieldingEvent)
    (hp : e₁.playerName = e₂.playerName) (hpick : normCell e₁.pick = normCell e₂.pick)
    (hthr : normCell e₁.throw = normCell e₂.throw)
    (hdesc : e₁.shortDescription = e₂.shortDescription) (hruns : e₁.runs = e₂.runs)
    (q : Str) : countsFor (e₁ :: es) q = countsFor (e₂ :: es) q := by
  have hdh : dhCond e₁ = dhCond e₂ := by
    unfold dhCond
    rw [hdesc]
  unfold countsFor
  simp only [matchCount_cons, runsSum_cons, hp, hpick, hthr, hdh, hruns]

/-- C3: pick/throw classification only depends on the trimmed,
lowercased field value — replacing an event's classification cells by
any whitespace/case variant leaves the whole aggregation unchanged, and
" Clean Pick " normalizes like "clean pick"; an event whose pick
outcome matches none of the four recognized values leaves CP, GT, C and
DC untouched, an event whose throw outcome matches none of the three
recognized values leaves ST, RO and MRO untouched, and in either case
its runs still flow into its player's RS. -/
theorem c3_normalization :
    (∀ (es : List FieldingEvent) (e₁ e₂ : FieldingEvent),
        e₁.playerName = e₂.playerName → normCell e₁.pick = normCell e₂.pick →
        normCell e₁.throw = normCell e₂.throw →
        e₁.shortDescription = e₂.shortDescription → e₁.runs = e₂.runs →
        compute_action_counts (e₁ :: es) = compute_action_counts (e₂ :: es))
    ∧ normCell (some " Clean Pick ".toList) = normCell (some "clean pick".toList)
    ∧ (∀ (es : List FieldingEvent) (e : FieldingEvent) (q : Str),
        normCell e.pick ≠ cleanPick → normCell e.pick ≠ goodThrow →
        normCell e.pick ≠ catchOutcome → normCell e.pick ≠ dropCatch →
        (countsFor (e :: es) q).CP = (countsFor es q).CP
        ∧ (countsFor (e :: es) q).GT = (countsFor es q).GT
        ∧ (countsFor (e :: es) q).C = (countsFor es q).C
        ∧ (countsFor (e :: es) q).DC = (countsFor es q).DC
        ∧ (countsFor (e :: es) e.playerName).RS
            = e.runs.getD 0 + (countsFor es e.playerName).RS)
    ∧ (∀ (es : List FieldingEvent) (e : FieldingEvent) (q : Str),
        normCell e.throw ≠ stumping → normCell e.throw ≠ runOut →
        normCell e.throw ≠ missedRunOut →
        (countsFor (e :: es) q).ST = (countsFor es q).ST
        ∧ (countsFor (e :: es) q).RO = (countsFor es q).RO
        ∧ (countsFor (e :: es) q).MRO = (countsFor es q).MRO
        ∧ (countsFor (e :: es) e.playerName).RS
            = e.runs.getD 0 + (countsFor es e.playerName).RS) := by
  refine ⟨?_, by decide, ?_, ?_⟩
  · intro es e₁ e₂ hp hpick hthr hdesc hruns
    unfold compute_action_counts players
    rw [List.map_cons, List.map_cons, hp]
    apply List.map_congr_left
    intro q hq
    rw [countsFor_cons_congr es e₁ e₂ hp hpick hthr hdesc hruns q]
  · intro es e q h1 h2 h3 h4
    have b1 : (normCell e.pick == cleanPick) = false := beq_eq_false_iff_ne.mpr h1
    have b2 : (normCell e.pick == goodThrow) = false := beq_eq_false_iff_ne.mpr h2
    have b3 : (normCell e.pick == catchOutcome) = false := beq_eq_false_iff_ne.mpr h3
    have b4 : (normCell e.pick == dropCatch) = false := beq_eq_false_iff_ne.mpr h4
    refine ⟨?_, ?_, ?_, ?_, ?_⟩ <;>
      simp [countsFor, matchCount_cons, runsSum_cons, b1, b2, b3, b4]
  · intro es e q h1 h2 h3
    have b1 : (normCell e.throw == stumping) = false := beq_eq_false_iff_ne.mpr h1
    have b2 : (normCell e.throw == runOut) = false := beq_eq_false_iff_ne.mpr h2
    have b3 : (normCell e.throw == missedRunOut) = false := beq_eq_false_iff_ne.mpr h3
    refine ⟨?_, ?_, ?_, ?_⟩ <;>
      simp [countsFor, matchCount_cons, runsSum_cons, b1, b2, b3]

/-- Witness for C3: a whitespace/case variant of "clean pick" aggregates
identically, and an event with an unrecognized pick outcome ("fumble"),
an empty (missing) throw outcome and runs -2 leaves CP and ST alone
while contributing its runs to RS. -/
theorem c3_normalization_witness :
    compute_action_counts [wsVariantEvent] = compute_action_counts [plainVariantEvent]
    ∧ (countsFor [oddPickEvent] "B".toList).CP = (countsFor [] "B".toList).CP
    ∧ (countsFor [oddPickEvent] "B".toList).ST = (countsFor [] "B".toList).ST
    ∧ (countsFor [oddPickEvent] "B".toList).RS = -2 + (countsFor [] "B".toList).RS := by
  refine ⟨c3_normalization.1 [] wsVariantEvent plainVariantEvent rfl (by decide) rfl rfl rfl,
    ?_, ?_, ?_⟩
  · exact (c3_normalization.2.2.1 [] oddPickEvent "B".toList (by decide) (by decide)
      (by decide) (by decide)).1
  · exact (c3_normalization.2.2.2 [] oddPickEvent "B".toList (by decide) (by decide)
      (by decide)).1
  · exact (c3_normalization.2.2.1 [] oddPickEvent "B".toList (by decide) (by decide)
      (by decide) (by decide)).2.2.2.2

/-- C4: an event classified as a drop catch whose description mentions
a direct hit (case-insensitively) increments both its player's DC and
DH counters by one — the two detections are independent. -/
theorem c4_direct_hit_independence (es : List FieldingEvent) (e : FieldingEvent)
    (hdh : containsSub (lower (e.shortDescription.getD [])) directHit = true)
    (hpick : normCell e.pick = dropCatch) :
    (countsFor (e :: es) e.playerName).DC = (countsFor es e.playerName).DC + 1
    ∧ (countsFor (e :: es) e.playerName).DH = (countsFor es e.playerName).DH + 1 := by
  have hdc : dhCond e = true := hdh
  refine ⟨?_, ?_⟩ <;>
    simp [countsFor, matchCount_cons, hpick, hdc] <;> omega

/-- Witness for C4: a "Drop Catch" event whose description contains
"Direct Hit" bumps both DC and DH. -/
theorem c4_direct_hit_witness :
    (containsSub (lower (dhEvent.shortDescription.getD [])) directHit = true)
    ∧ (normCell dhEvent.pick = dropCatch)
    ∧ (countsFor [dhEvent] "A".toList).DC = (countsFor [] "A".toList).DC + 1
    ∧ (countsFor [dhEvent] "A".toList).DH = (countsFor [] "A".toList).DH + 1 := by
  have h := c4_direct_hit_independence [] dhEvent (by decide) (by decide)
  exact ⟨by decide, by decide, h.1, h.2⟩

theorem filter_length_cons {α : Type} (f : α → Bool) (e : α) (es : List α) :
    (List.filter f (e :: es)).length
      = (if f e then 1 else 0) + (List.filter f es).length := by
  rw [List.filter_cons]
  by_cases h : f e = true
  · rw [if_pos h, if_pos h, List.length_cons]
    omega
  · rw [if_neg h, if_neg h]
    omega

theorem ite_sum_four_le_one {α : Type} [DecidableEq α] (n a b c d : α)
    (hab : a ≠ b) (hac : a ≠ c) (had : a ≠ d) (hbc : b ≠ c) (hbd : b ≠ d) (hcd : c ≠ d) :
    ((if n = a then 1 else 0) + (if n = b then 1 else 0) + (if n = c then 1 else 0)
      + (if n = d then 1 else 0) : Nat) ≤ 1 := by
  by_cases h1 : n = a
  · rw [if_pos h1, if_neg (by rw [h1]; exact hab), if_neg (by rw [h1]; exact hac),
      if_neg (by rw [h1]; exact had)]
  · rw [if_neg h1]
    by_cases h2 : n = b
    · rw [if_pos h2, if_neg (by rw [h2]; exact hbc), if_neg (by rw [h2]; exact hbd)]
    · rw [if_neg h2]
      by_cases h3 : n = c
      · rw [if_pos h3, if_neg (by rw [h3]; exact hcd)]
      · rw [if_neg h3]
        by_cases h4 : n = d
        · rw [if_pos h4]
        · rw [if_neg h4]
          omega

theorem ite_sum_three_le_one {α : Type} [DecidableEq α] (n a b c : α)
    (hab : a ≠ b) (hac : a ≠ c) (hbc : b ≠ c) :
    ((if n = a then 1 else 0) + (if n = b then 1 else 0)
      + (if n = c then 1 else 0) : Nat) ≤ 1 := by
  by_cases h1 : n = a
  · rw [if_pos h1, if_neg (by rw [h1]; exact hab), if_neg (by rw [h1]; exact hac)]
  · rw [if_neg h1]
    by_cases h2 : n = b
    · rw [if_pos h2, if_neg (by rw [h2]; exact hbc)]
    · rw [if_neg h2]
      by_cases h3 : n = c
      · rw [if_pos h3]
      · rw [if_neg h3]
        omega

theorem pick_event_bound (e : FieldingEvent) (p : Str) :
    ((if e.playerName == p && (normCell e.pick == cleanPick) then 1 else 0)
      + (if e.playerName == p && (normCell e.pick == goodThrow) then 1 else 0)
      + (if e.playerName == p && (normCell e.pick == catchOutcome) then 1 else 0)
      + (if e.playerName == p && (normCell e.pick == dropCatch) then 1 else 0) : Nat)
      ≤ (if e.playerName == p && !(e.pick.getD []).isEmpty then 1 else 0) := by
  by_cases hq : (e.playerName == p) = true
  · by_cases h1 : normCell e.pick = cleanPick
    · have hnil : ¬ e.pick.getD [] = [] := by
        intro hn
        rw [normCell_nil_of_getD_nil _ hn] at h1
        exact absurd h1 (by decide)
      have b1 : (normCell e.pick == cleanPick) = true := beq_iff_eq.mpr h1
      have b2 : (normCell e.pick == goodThrow) = false := by rw [h1]; decide
      have b3 : (normCell e.pick == catchOutcome) = false := by rw [h1]; decide
      have b4 : (normCell e.pick == dropCatch) = false := by rw [h1]; decide
      simp [hq, b1, b2, b3, b4, hnil]
    · have b1 : (normCell e.pick == cleanPick) = false := beq_eq_false_iff_ne.mpr h1
      by_cases h2 : normCell e.pick = goodThrow
      · have hnil : ¬ e.pick.getD [] = [] := by
          intro hn
          rw [normCell_nil_of_getD_nil _ hn] at h2
          exact absurd h2 (by decide)
        have b2 : (normCell e.pick == goodThrow) = true := beq_iff_eq.mpr h2
        have b3 : (normCell e.pick == catchOutcome) = false := by rw [h2]; decide
        have b4 : (normCell e.pick == dropCatch) = false := by rw [h2]; decide
        simp [hq, b1, b2, b3, b4, hnil]
      · have b2 : (normCell e.pick == goodThrow) = false := beq_eq_false_iff_ne.mpr h2
        by_cases h3 : normCell e.pick = catchOutcome
        · have hnil : ¬ e.pick.getD [] = [] := by
            intro hn
            rw [normCell_nil_of_getD_nil _ hn] at h3
            exact absurd h3 (by decide)
          have b3 : (normCell e.pick == catchOutcome) = true := beq_iff_eq.mpr h3
          have b4 : (normCell e.pick == dropCatch) = false := by rw [h3]; decide
          simp [hq, b1, b2, b3, b4, hnil]
        · have b3 : (normCell e.pick == catchOutcome) = false := beq_eq_false_iff_ne.mpr h3
          by_cases h4 : normCell e.pick = dropCatch
          · have hnil : ¬ e.pick.getD [] = [] := by
              intro hn
              rw [normCell_nil_of_getD_nil _ hn] at h4
              exact absurd h4 (by decide)
            have b4 : (normCell e.pick == dropCatch) = true := beq_iff_eq.mpr h4
            simp [hq, b1, b2, b3, b4, hnil]
          · have b4 : (normCell e.pick == dropCatch) = false := beq_eq_false_iff_ne.mpr h4
            simp [b1, b2, b3, b4]
  · have hqf : (e.playerName == p) = false := by simpa using hq
    simp [hqf]

/-- C5: each event matches at most one of the four pick values and at
most one of the three throw values, so a player's CP+GT+C+DC is bounded
by the number of that player's events with a non-empty pick cell. -/
theorem c5_count_conservation :
    (∀ e : FieldingEvent,
        ((if normCell e.pick = cleanPick then 1 else 0)
          + (if normCell e.pick = goodThrow then 1 else 0)
          + (if normCell e.pick = catchOutcome then 1 else 0)
          + (if normCell e.pick = dropCatch then 1 else 0) : Nat) ≤ 1
        ∧ ((if normCell e.throw = stumping then 1 else 0)
          + (if normCell e.throw = runOut then 1 else 0)
          + (if normCell e.throw = missedRunOut then 1 else 0) : Nat) ≤ 1)
    ∧ (∀ (es : List FieldingEvent) (p : Str),
        (countsFor es p).CP + (countsFor es p).GT + (countsFor es p).C
            + (countsFor es p).DC
          ≤ (es.filter (fun e => e.playerName == p && !(e.pick.getD []).isEmpty)).length) := by
  constructor
  · intro e
    exact ⟨ite_sum_four_le_one _ _ _ _ _ (by decide) (by decide) (by decide) (by decide)
        (by decide) (by decide),
      ite_sum_three_le_one _ _ _ _ (by decide) (by decide) (by decide)⟩
  · intro es p
    induction es with
    | nil => exact Nat.le.refl
    | cons e es ih =>
      simp only [countsFor] at ih ⊢
      simp only [matchCount_cons]
      rw [filter_length_cons]
      have hb := pick_event_bound e p
      omega

/-- C6: the Scorer preserves the key list and every counter column of
its input table exactly, adding only the PS field; as a pure function
on immutable values it cannot mutate its input. -/
theorem c6_scorer_frame (m : List (Str × Counts)) (w : Weights) :
    (compute_ps m w).map Prod.fst = m.map Prod.fst
    ∧ ∀ (p : Str) (r : ScoredRow),
        ((p, r) ∈ compute_ps m w ↔ (p, r.counts) ∈ m ∧ r.PS = psFormula w r.counts) := by
  constructor
  · unfold compute_ps
    rw [List.map_map]
    apply List.map_congr_left
    intro pc hpc
    rfl
  · intro p r
    constructor
    · intro h
      unfold compute_ps at h
      rcases List.mem_map.mp h with ⟨⟨q, c⟩, hqc, heq⟩
      injection heq with h1 h2
      subst h1
      subst h2
      exact ⟨hqc, rfl⟩
    · rintro ⟨hmem, hps⟩
      unfold compute_ps
      apply List.mem_map.mpr
      refine ⟨(p, r.counts), hmem, ?_⟩
      show (p, (⟨r.counts, psFormula w r.counts⟩ : ScoredRow)) = (p, r)
      rw [← hps]

/-- Witness for C6: the singleton table of player "A"'s example
aggregate keeps its key and counts and gains only PS. -/
theorem c6_scorer_frame_witness :
    (compute_ps [("A".toList, exampleCounts)] exampleWeights).map Prod.fst
        = [("A".toList, exampleCounts)].map Prod.fst
    ∧ (("A".toList, (⟨exampleCounts, psFormula exampleWeights exampleCounts⟩ : ScoredRow))
          ∈ compute_ps [("A".toList, exampleCounts)] exampleWeights
        ↔ ("A".toList, exampleCounts) ∈ [("A".toList, exampleCounts)]
          ∧ psFormula exampleWeights exampleCounts = psFormula exampleWeights exampleCounts) := by
  refine ⟨(c6_scorer_frame [("A".toList, exampleCounts)] exampleWeights).1, ?_⟩
  exact (c6_scorer_frame [("A".toList, exampleCounts)] exampleWeights).2 "A".toList
    ⟨exampleCounts, psFormula exampleWeights exampleCounts⟩

/-- C7 counterexample: the code groups by the raw 'Player Name' - it is
never trimmed - so "A" and " A " are two distinct players, while the
claim says names differing only in surrounding whitespace merge. -/
theorem c7_grouping_counterexample :
    ((compute_action_counts [plainEvent, spacedEvent]).map Prod.fst).length = 2
    ∧ "A".toList ∈ (compute_action_counts [plainEvent, spacedEvent]).map Prod.fst
    ∧ " A ".toList ∈ (compute_action_counts [plainEvent, spacedEvent]).map Prod.fst
    ∧ ¬((compute_action_counts [plainEvent, spacedEvent]).map Prod.fst = ["A".toList]) := by
  decide

/-- C7 (amended): the grouping key is the raw 'Player Name' compared
exactly - case-sensitively and whitespace-sensitively: the table has one
row per distinct raw name, and an event contributes nothing to the row
of any name other than its own exact raw name. -/
theorem c7_raw_name_grouping :
    (∀ es : List FieldingEvent,
        (compute_action_counts es).map Prod.fst = (es.map (fun e => e.playerName)).dedup)
    ∧ (∀ (es : List FieldingEvent) (e : FieldingEvent) (q : Str),
        e.playerName ≠ q → countsFor (e :: es) q = countsFor es q) := by
  constructor
  · intro es
    unfold compute_action_counts players
    rw [List.map_map]
    have h : ((es.map fun e => e.playerName).dedup).map
          (Prod.fst ∘ fun p => (p, countsFor es p))
        = ((es.map fun e => e.playerName).dedup).map id :=
      List.map_congr_left (fun a h => rfl)
    rw [h, List.map_id]
  · intro es e q hne
    have hq : (e.playerName == q) = false := beq_eq_false_iff_ne.mpr hne
    unfold countsFor
    simp only [matchCount_cons, runsSum_cons, hq, Bool.false_and, if_false]
    simp

/-- Witness for C7 (amended): the whitespace-wrapped name " A " leaves
the row of the exact name "A" untouched. -/
theorem c7_raw_name_grouping_witness :
    countsFor [spacedEvent] "A".toList = countsFor [] "A".toList :=
  c7_raw_name_grouping.2 [] spacedEvent "A".toList (by decide)
